import Mathlib

/-!
Verification of the DCO layered configuration loader.

This file gives a shallow embedding, in Lean 4, of the core of the
`dco` package (`src/dco/core.py`, `src/dco/secrets.py`,
`src/dco/utils.py`) and proves the specification claims about it.

Modelling conventions:
* Python/JSON/YAML values are modelled by the inductive type `Value`
  (floating-point leaves are omitted: no claim involves them; numeric
  leaves are modelled as integers).
* Python dicts are modelled as association lists (`Obj`) whose order
  mirrors insertion order, exactly as CPython dicts preserve it.
  `setKey` models `d[k] = v` (replace in place if the key exists,
  append otherwise) and `lookup` models `d.get(k)`.
* Mutation never occurs in the embedding; the Python functions under
  study (`deep_merge` in particular) return fresh dicts and never
  mutate their inputs, so the pure embedding is faithful.
* Python string operations are re-implemented over `List Char` so that
  every definition evaluates inside the kernel.  `Char.toLower` only
  lowers ASCII letters, like the configuration keys the loader uses.
-/

inductive Value where
  | null
  | bool (b : Bool)
  | int (n : Int)
  | str (s : String)
  | list (items : List Value)
  | obj (entries : List (String × Value))

abbrev Obj := List (String × Value)

/-- Models `d.get(k)` on a Python dict modelled as an association list. -/
def lookup : Obj → String → Option Value
  | [], _ => none
  | (k', v') :: rest, k => if k' = k then some v' else lookup rest k

/-- Models `d[k] = v` on a Python dict: replace the existing entry in place,
append a new entry otherwise. -/
def setKey : Obj → String → Value → Obj
  | [], k, v => [(k, v)]
  | (k', v') :: rest, k, v =>
    if k' = k then (k, v) :: rest else (k', v') :: setKey rest k v

/-- The keys of a dict, in order. -/
def keys (m : Obj) : List String := m.map Prod.fst

/-- Python dicts never contain a key twice; association lists that model
them satisfy this invariant. -/
def NodupKeys (m : Obj) : Prop := (keys m).Nodup

instance : DecidablePred NodupKeys := fun m =>
  inferInstanceAs (Decidable ((keys m).Nodup))

/-- Truthiness of a Python value (`bool(v)`): `None`, `False`, `0`, `""`,
`[]` and `\x7b\x7d` are falsy. -/
def isFalsy : Value → Bool
  | .null => true
  | .bool b => !b
  | .int n => n == 0
  | .str s => s == ""
  | .list items => items.isEmpty
  | .obj entries => entries.isEmpty

/-- Models `isinstance(v, dict)`. -/
def Value.isObj : Value → Bool
  | .obj _ => true
  | _ => false

mutual

/-- The body of the `isinstance`-guarded branch of `deep_merge`
(`core.py` lines 33-36): when both sides are dicts the entries are
merged recursively, otherwise the overlay value replaces the base value
wholesale (sequences included). -/
def mergeValue : Value → Value → Value
  | .obj ao, .obj bo => .obj (deep_merge ao bo)
  | _, b => b

/-- Models `deep_merge(a, b)` from `core.py` lines 26-37: start from a copy of
`a` (`out = dict(a or \x7b\x7d)`) and fold the entries of `b` into it in
order. -/
def deep_merge (a : Obj) : Obj → Obj
  | [] => a
  | (k, v) :: rest =>
    deep_merge
      (match lookup a k with
       | some av => setKey a k (mergeValue av v)
       | none => setKey a k v) rest

end

/-! ### String helpers (re-implemented so the kernel can evaluate them) -/

/-- Python `s.startswith(p)`. -/
def strStartsWith (s p : String) : Bool := p.data.isPrefixOf s.data

/-- Python `s[n:]` (slicing by code points). -/
def strDrop (s : String) (n : Nat) : String := ⟨s.data.drop n⟩

/-- Python `s.lower()` (ASCII letters; configuration keys are ASCII). -/
def strToLower (s : String) : String := ⟨s.data.map Char.toLower⟩

/-- Python `c in s` for a single character. -/
def strContainsChar (s : String) (c : Char) : Bool := s.data.contains c

/-- One step of `str.split`: accumulate characters, cutting the current
segment as soon as it ends with the (non-empty) separator.  Scanning
left to right and cutting at the earliest completed occurrence matches
Python's non-overlapping, leftmost-match `split`. -/
def splitStep (sep : List Char) (st : List (List Char) × List Char) (c : Char) :
    List (List Char) × List Char :=
  let cur := st.2 ++ [c]
  if sep.isSuffixOf cur then (st.1 ++ [cur.take (cur.length - sep.length)], [])
  else (st.1, cur)

/-- Python `s.split(sep)` for a non-empty separator. -/
def strSplitOn (s sep : String) : List String :=
  let fin := s.data.foldl (splitStep sep.data) ([], [])
  (fin.1 ++ [fin.2]).map fun cs => ⟨cs⟩

/-! ### Basic dict lemmas -/

theorem lookup_setKey_self (m : Obj) (k : String) (v : Value) :
    lookup (setKey m k v) k = some v := by
  induction m with
  | nil => simp [setKey, lookup]
  | cons hd rest ih =>
    obtain ⟨k', v'⟩ := hd
    by_cases h : k' = k <;> simp [setKey, lookup, h, ih]

theorem lookup_setKey_other (m : Obj) (k k' : String) (v : Value) (hne : k' ≠ k) :
    lookup (setKey m k v) k' = lookup m k' := by
  have hne' : ¬(k = k') := fun h => hne h.symm
  induction m with
  | nil => simp [setKey, lookup, hne']
  | cons hd rest ih =>
    obtain ⟨k₀, v₀⟩ := hd
    by_cases h : k₀ = k
    · subst h
      simp [setKey, lookup, hne']
    · simp [setKey, lookup, h, ih]

theorem lookup_eq_none_iff (m : Obj) (k : String) :
    lookup m k = none ↔ k ∉ keys m := by
  induction m with
  | nil => simp [lookup, keys]
  | cons hd rest ih =>
    obtain ⟨k', v'⟩ := hd
    by_cases h : k' = k
    · subst h
      simp [lookup, keys]
    · have h' : ¬(k = k') := fun hh => h hh.symm
      simp [lookup, keys, h, h', ih]

theorem lookup_isSome_iff (m : Obj) (k : String) :
    (lookup m k).isSome = true ↔ k ∈ keys m := by
  rw [Option.isSome_iff_ne_none, ne_eq, lookup_eq_none_iff]
  exact not_not

theorem nodupKeys_cons (k : String) (v : Value) (rest : Obj) :
    NodupKeys ((k, v) :: rest) ↔ k ∉ keys rest ∧ NodupKeys rest := by
  constructor
  · intro h
    have h' : (k :: keys rest).Nodup := h
    rw [List.nodup_cons] at h'
    exact h'
  · intro h
    have h' : (k :: keys rest).Nodup := List.nodup_cons.mpr h
    exact h'

/-- The result of looking up a key after a deep merge, as a function of
the two original lookups: absent in the overlay means the base value
persists, two dicts merge recursively, anything else is the overlay
value. -/
def mergeLookup (bv av : Option Value) : Option Value :=
  match bv, av with
  | none, _ => av
  | some (Value.obj vo), some (Value.obj ao) => some (Value.obj (deep_merge ao vo))
  | some v, _ => some v

theorem lookup_deep_merge (b : Obj) (hb : NodupKeys b) (a : Obj) (k : String) :
    lookup (deep_merge a b) k = mergeLookup (lookup b k) (lookup a k) := by
  induction b generalizing a with
  | nil => rfl
  | cons hd rest ih =>
    obtain ⟨kb, vb⟩ := hd
    obtain ⟨hnotin, hrest⟩ := (nodupKeys_cons kb vb rest).mp hb
    rw [deep_merge]
    by_cases hk : kb = k
    · subst hk
      have hrnone : lookup rest kb = none := (lookup_eq_none_iff rest kb).mpr hnotin
      have hbk : lookup ((kb, vb) :: rest) kb = some vb := by simp [lookup]
      rw [hbk]
      cases hav : lookup a kb with
      | none =>
        rw [ih hrest, hrnone]
        show lookup (setKey a kb vb) kb = mergeLookup (some vb) none
        rw [lookup_setKey_self]
        cases vb <;> rfl
      | some av =>
        rw [ih hrest, hrnone]
        show lookup (setKey a kb (mergeValue av vb)) kb = mergeLookup (some vb) (some av)
        rw [lookup_setKey_self]
        cases av <;> cases vb <;> rfl
    · have hbk : lookup ((kb, vb) :: rest) k = lookup rest k := by
        simp [lookup, hk]
      rw [hbk]
      have hne : k ≠ kb := fun h => hk h.symm
      cases hav : lookup a kb with
      | none =>
        rw [ih hrest, lookup_setKey_other a kb k vb hne]
      | some av =>
        rw [ih hrest, lookup_setKey_other a kb k (mergeValue av vb) hne]

theorem deep_merge_nil (a : Obj) : deep_merge a [] = a := rfl

theorem setKey_not_mem (m : Obj) (k : String) (v : Value) (h : k ∉ keys m) :
    setKey m k v = m ++ [(k, v)] := by
  induction m with
  | nil => simp [setKey]
  | cons hd rest ih =>
    obtain ⟨k', v'⟩ := hd
    have h1 : ¬(k' = k) := by
      intro hh
      exact h (by rw [hh]; exact List.mem_cons_self _ _)
    have h2 : k ∉ keys rest := fun hh => h (List.mem_cons_of_mem _ hh)
    simp [setKey, h1, ih h2]

theorem deep_merge_disjoint (b : Obj) (hb : NodupKeys b) (a : Obj)
    (hdisj : ∀ k ∈ keys b, k ∉ keys a) :
    deep_merge a b = a ++ b := by
  induction b generalizing a with
  | nil => simp [deep_merge]
  | cons hd rest ih =>
    obtain ⟨kb, vb⟩ := hd
    obtain ⟨hnotin, hrest⟩ := (nodupKeys_cons kb vb rest).mp hb
    have hkb : kb ∉ keys a := hdisj kb (List.mem_cons_self _ _)
    have hnone : lookup a kb = none := (lookup_eq_none_iff a kb).mpr hkb
    rw [deep_merge, hnone, setKey_not_mem a kb vb hkb]
    rw [ih hrest (a ++ [(kb, vb)]) ?_]
    · simp
    · intro k hk
      have hkeys : keys (a ++ [(kb, vb)]) = keys a ++ [kb] := by
        simp [keys]
      rw [hkeys]
      simp only [List.mem_append, List.mem_singleton]
      push_neg
      refine ⟨hdisj k (List.mem_cons_of_mem _ hk), ?_⟩
      intro hkkb
      exact hnotin (hkkb ▸ hk)

theorem deep_merge_nil_left (b : Obj) (hb : NodupKeys b) : deep_merge [] b = b := by
  simpa using deep_merge_disjoint b hb [] (by simp [keys])

/-- Claim C2: for all mappings `A` and `B`, `deep_merge(A, B)` contains
every key of `B` with `B`'s value, except that where both values at a
key are mappings they are merged recursively; sequences are replaced
wholesale; every key of `A` not present in `B` is preserved unchanged;
`deep_merge(A, \x7b\x7d) = A` and `deep_merge(\x7b\x7d, B) = B`.
(Non-mutation of the inputs is inherent: the embedded `deep_merge` is a
pure function, mirroring the Python code, which writes only into the
fresh dict `out = dict(a)`.) -/
theorem C2_deep_merge_spec (a b : Obj) (hb : NodupKeys b) :
    (∀ k, lookup b k = none → lookup (deep_merge a b) k = lookup a k) ∧
    (∀ k v, lookup b k = some v → v.isObj = false →
      lookup (deep_merge a b) k = some v) ∧
    (∀ k vo ao, lookup b k = some (Value.obj vo) → lookup a k = some (Value.obj ao) →
      lookup (deep_merge a b) k = some (Value.obj (deep_merge ao vo))) ∧
    (∀ k vo, lookup b k = some (Value.obj vo) →
      (∀ ao, lookup a k ≠ some (Value.obj ao)) →
      lookup (deep_merge a b) k = some (Value.obj vo)) ∧
    (∀ k items, lookup b k = some (Value.list items) →
      lookup (deep_merge a b) k = some (Value.list items)) ∧
    deep_merge a [] = a ∧
    deep_merge [] b = b := by
  refine ⟨?_, ?_, ?_, ?_, ?_, deep_merge_nil a, deep_merge_nil_left b hb⟩
  · intro k hbk
    rw [lookup_deep_merge b hb a k, hbk]
    rfl
  · intro k v hbk hobj
    rw [lookup_deep_merge b hb a k, hbk]
    cases v with
    | null => rfl
    | bool x => rfl
    | int x => rfl
    | str x => rfl
    | list x => rfl
    | obj o => simp [Value.isObj] at hobj
  · intro k vo ao hbk hak
    rw [lookup_deep_merge b hb a k, hbk, hak]
    rfl
  · intro k vo hbk hak
    rw [lookup_deep_merge b hb a k, hbk]
    cases hav : lookup a k with
    | none => rfl
    | some av =>
      cases av with
      | obj o => exact absurd hav (hak o)
      | null => rfl
      | bool x => rfl
      | int x => rfl
      | str x => rfl
      | list x => rfl
  · intro k items hbk
    rw [lookup_deep_merge b hb a k, hbk]
    rfl

/-- Witness for C2 at concrete mappings
`A = \x7b"x": 1, "y": \x7b"a": 1\x7d\x7d`,
`B = \x7b"y": \x7b"b": 2\x7d, "z": 3\x7d`. -/
theorem C2_deep_merge_spec_witness :
    NodupKeys [("y", Value.obj [("b", Value.int 2)]), ("z", Value.int 3)] ∧
    lookup (deep_merge [("x", Value.int 1), ("y", Value.obj [("a", Value.int 1)])]
      [("y", Value.obj [("b", Value.int 2)]), ("z", Value.int 3)]) "y" =
      some (Value.obj (deep_merge [("a", Value.int 1)] [("b", Value.int 2)])) :=
  ⟨by decide,
   (C2_deep_merge_spec
      [("x", Value.int 1), ("y", Value.obj [("a", Value.int 1)])]
      [("y", Value.obj [("b", Value.int 2)]), ("z", Value.int 3)]
      (by decide)).2.2.1 "y" [("b", Value.int 2)] [("a", Value.int 1)] rfl rfl⟩

/-! ### The five-layer merge in `ConfigLoader.load` -/

/-- The merge loop of `ConfigLoader.load` (`core.py` lines 237-240):
`merged = \x7b\x7d; for layer in (files, dotenv, secrets, envvars,
overrides): merged = deep_merge(merged, layer)`.  The five layer
mappings are the results of the four source readers plus the caller's
overrides; they are passed in explicitly here (validation of the merged
mapping against the pydantic model is outside the merge order and not
modelled). -/
def load_merged (files dotenv secrets envvars overrides : Obj) : Obj :=
  [files, dotenv, secrets, envvars, overrides].foldl deep_merge []

theorem mergeLookup_none (av : Option Value) : mergeLookup none av = av := rfl

theorem mergeLookup_some_nonobj (v : Value) (av : Option Value) (h : v.isObj = false) :
    mergeLookup (some v) av = some v := by
  cases v with
  | null => rfl
  | bool x => rfl
  | int x => rfl
  | str x => rfl
  | list x => rfl
  | obj o => simp [Value.isObj] at h

theorem mergeLookup_av_none (bv : Option Value) : mergeLookup bv none = bv := by
  cases bv with
  | none => rfl
  | some v => cases v <;> rfl

/-- Claim C1: `load` merges the five layers through `deep_merge` in the
fixed order files, dotenv, secrets, environment variables, overrides,
starting from an empty accumulator, so on a key collision a later
layer's non-mapping value wins over every earlier layer; and the order
is independent of layer content: replacing any one layer by the empty
mapping leaves exactly the merge of the four other layers in the same
order. -/
theorem C1_load_order (f d s e o : Obj)
    (hf : NodupKeys f) (hd : NodupKeys d) (hs : NodupKeys s)
    (he : NodupKeys e) (ho : NodupKeys o) :
    (∀ k v, v.isObj = false → lookup o k = some v →
      lookup (load_merged f d s e o) k = some v) ∧
    (∀ k v, v.isObj = false → lookup o k = none → lookup e k = some v →
      lookup (load_merged f d s e o) k = some v) ∧
    (∀ k v, v.isObj = false → lookup o k = none → lookup e k = none →
      lookup s k = some v → lookup (load_merged f d s e o) k = some v) ∧
    (∀ k v, v.isObj = false → lookup o k = none → lookup e k = none →
      lookup s k = none → lookup d k = some v →
      lookup (load_merged f d s e o) k = some v) ∧
    (∀ k, lookup o k = none → lookup e k = none → lookup s k = none →
      lookup d k = none → lookup (load_merged f d s e o) k = lookup f k) ∧
    load_merged [] d s e o =
      deep_merge (deep_merge (deep_merge (deep_merge [] d) s) e) o ∧
    load_merged f [] s e o =
      deep_merge (deep_merge (deep_merge (deep_merge [] f) s) e) o ∧
    load_merged f d [] e o =
      deep_merge (deep_merge (deep_merge (deep_merge [] f) d) e) o ∧
    load_merged f d s [] o =
      deep_merge (deep_merge (deep_merge (deep_merge [] f) d) s) o ∧
    load_merged f d s e [] =
      deep_merge (deep_merge (deep_merge (deep_merge [] f) d) s) e := by
  have hunfold : load_merged f d s e o =
      deep_merge (deep_merge (deep_merge (deep_merge (deep_merge [] f) d) s) e) o := rfl
  refine ⟨?_, ?_, ?_, ?_, ?_, rfl, rfl, rfl, rfl, rfl⟩
  · intro k v hv hok
    rw [hunfold, lookup_deep_merge o ho _ k, hok, mergeLookup_some_nonobj v _ hv]
  · intro k v hv hok hek
    rw [hunfold, lookup_deep_merge o ho _ k, hok, mergeLookup_none,
      lookup_deep_merge e he _ k, hek, mergeLookup_some_nonobj v _ hv]
  · intro k v hv hok hek hsk
    rw [hunfold, lookup_deep_merge o ho _ k, hok, mergeLookup_none,
      lookup_deep_merge e he _ k, hek, mergeLookup_none,
      lookup_deep_merge s hs _ k, hsk, mergeLookup_some_nonobj v _ hv]
  · intro k v hv hok hek hsk hdk
    rw [hunfold, lookup_deep_merge o ho _ k, hok, mergeLookup_none,
      lookup_deep_merge e he _ k, hek, mergeLookup_none,
      lookup_deep_merge s hs _ k, hsk, mergeLookup_none,
      lookup_deep_merge d hd _ k, hdk, mergeLookup_some_nonobj v _ hv]
  · intro k hok hek hsk hdk
    rw [hunfold, lookup_deep_merge o ho _ k, hok, mergeLookup_none,
      lookup_deep_merge e he _ k, hek, mergeLookup_none,
      lookup_deep_merge s hs _ k, hsk, mergeLookup_none,
      lookup_deep_merge d hd _ k, hdk, mergeLookup_none,
      lookup_deep_merge f hf _ k]
    exact mergeLookup_av_none (lookup f k)

/-- Witness for C1: the overrides layer beats all four earlier layers on
the colliding key `"a"`. -/
theorem C1_load_order_witness :
    lookup (load_merged [("a", Value.str "files")] [("a", Value.str "dotenv")]
      [("a", Value.str "secrets")] [("a", Value.str "envvars")]
      [("a", Value.str "overrides")]) "a" = some (Value.str "overrides") :=
  (C1_load_order [("a", Value.str "files")] [("a", Value.str "dotenv")]
      [("a", Value.str "secrets")] [("a", Value.str "envvars")]
      [("a", Value.str "overrides")]
      (by decide) (by decide) (by decide) (by decide) (by decide)).1
    "a" (Value.str "overrides") rfl rfl

/-! ### Environment-variable translation (`_envvar_to_nested`) -/

/-- The nested-dict construction loop of `_envvar_to_nested`
(`core.py` lines 51-57): `cur = \x7b\x7d; node = cur; for part in
key_path[:-1]: node[part] = \x7b\x7d; node = node[part];
node[key_path[-1]] = value`. -/
def nestPath : List String → String → Obj
  | [], _ => []
  | [p], value => [(p, Value.str value)]
  | p :: q :: rest, value => [(p, Value.obj (nestPath (q :: rest) value))]

/-- Models `key[len(prefix):].split("__")` followed by
`[p.lower() for p in key_path if p != ""]` (`core.py` lines 48-50). -/
def envSegments (key pfx : String) : List String :=
  ((strSplitOn (strDrop key pfx.length) "__").filter (fun p => p ≠ "")).map strToLower

/-- Models `_envvar_to_nested(key, value, prefix)` (`core.py` lines 40-57).
`none` models an exception: the `assert key.startswith(prefix)` failing,
or the `key_path[-1]` IndexError when every segment is empty. -/
def _envvar_to_nested (key value pfx : String) : Option Obj :=
  if strStartsWith key pfx then
    match envSegments key pfx with
    | [] => none
    | p :: rest => some (nestPath (p :: rest) value)
  else none

/-- The singly-nested mapping the spec describes: one key per level,
lower-cased path segments, the raw string value at the single leaf. -/
def chainOf : List String → String → Obj
  | [], _ => []
  | [p], value => [(p, Value.str value)]
  | p :: q :: rest, value => [(p, Value.obj (chainOf (q :: rest) value))]

/-- Follow a key path through nested mappings. -/
def pathLookup : Obj → List String → Option Value
  | _, [] => none
  | m, [p] => lookup m p
  | m, p :: q :: rest =>
    match lookup m p with
    | some (Value.obj o) => pathLookup o (q :: rest)
    | _ => none

/-! ### The environment-variable scan (`ConfigLoader._read_envvars`) -/

/-- The body of the scan loop (`core.py` lines 213-221): skip keys
without the prefix; translate the rest, `deep_merge`-accumulating, and
skip (`except Exception: continue`) any key whose translation fails. -/
def envvarStep (pfx : String) (out : Obj) (kv : String × String) : Obj :=
  if strStartsWith kv.1 pfx then
    match _envvar_to_nested kv.1 kv.2 pfx with
    | some nested => deep_merge out nested
    | none => out
  else out

/-- Models `ConfigLoader._read_envvars` (`core.py` lines 210-222), with the
process environment passed explicitly as a key/value snapshot. -/
def _read_envvars (environ : List (String × String)) (pfx : String) : Obj :=
  environ.foldl (envvarStep pfx) []

/-! ### The secrets layer (`ConfigLoader._read_secrets` and `CachedProvider`) -/

/-- Outcome of a call to `secrets_provider.get_secrets(env)`: the call
either raises, or returns a Python value (`ok none` models `None`). -/
inductive FetchOutcome where
  | raised
  | ok (v : Option Value)

/-- Models `ConfigLoader._read_secrets` (`core.py` lines 201-208):
`s = self.secrets_provider.get_secrets(self.env) or \x7b\x7d`; a
non-dict becomes `\x7b\x7d`; any exception yields `\x7b\x7d`. -/
def _read_secrets (fetched : FetchOutcome) : Obj :=
  match fetched with
  | .raised => []
  | .ok v =>
    let s := match v with
      | none => Value.obj []
      | some x => if isFalsy x then Value.obj [] else x
    match s with
    | Value.obj o => o
    | _ => []

def alistGet {α : Type} : List (String × α) → String → Option α
  | [], _ => none
  | (k', v') :: rest, k => if k' = k then some v' else alistGet rest k

def alistSet {α : Type} : List (String × α) → String → α → List (String × α)
  | [], k, v => [(k, v)]
  | (k', v') :: rest, k, v =>
    if k' = k then (k, v) :: rest else (k', v') :: alistSet rest k v

/-- Models `CachedProvider.get_secrets` (`secrets.py` lines 52-68).  State is
threaded explicitly: the result is the returned mapping, the updated
`_cache`, and whether the wrapped provider was invoked.  The code
checks `if self.ttl == 0 or (now - ts) < self.ttl: return value` on a
cache hit; on miss or expiry it fetches, coerces a non-mapping (or an
exception, which is logged) to `\x7b\x7d`, and stores `(now, value)`. -/
def cached_get_secrets (ttl : Int) (cache : List (String × (Int × Obj)))
    (fetch : FetchOutcome) (env : String) (now : Int) :
    Obj × List (String × (Int × Obj)) × Bool :=
  match alistGet cache env with
  | some (ts, value) =>
    if ttl == 0 || (now - ts) < ttl then (value, cache, false)
    else
      let value := match fetch with
        | .raised => []
        | .ok none => []
        | .ok (some (Value.obj o)) => o
        | .ok (some _) => []
      (value, alistSet cache env (now, value), true)
  | none =>
    let value := match fetch with
      | .raised => []
      | .ok none => []
      | .ok (some (Value.obj o)) => o
      | .ok (some _) => []
    (value, alistSet cache env (now, value), true)

/-! ### The files layer (`ConfigLoader._read_files`) -/

/-- Models `ConfigLoader._read_files` (`core.py` lines 137-171).  The list
models the fixed candidate order `config.yaml`, `config.yml`,
`config.json`, `config.<env>.yaml`, `config.<env>.yml`,
`config.<env>.json`; `none` means the file does not exist
(`if not p.exists(): continue`) and `some d` means it exists and parses
to the top-level mapping `d` (parse failures and non-mapping top levels
raise `MergeError` and are outside these claims). -/
def _read_files (cands : List (Option Obj)) : Obj :=
  cands.foldl
    (fun merged c =>
      match c with
      | none => merged
      | some data => deep_merge merged data) []

def firstSome {α : Type} : List (Option α) → Option α
  | [] => none
  | some x :: _ => some x
  | none :: rest => firstSome rest

/-- The files layer as claim C4 words it: one base file chosen by
extension priority (first existing wins), then the single
environment-qualified file deep-merged after it. -/
def read_files_claimed (baseCands envCands : List (Option Obj)) : Obj :=
  deep_merge ((firstSome baseCands).getD []) ((firstSome envCands).getD [])

/-! ### The dotenv layer (`ConfigLoader._read_dotenv`) -/

/-- The `setdefault` walk of the dot-notation branch (`core.py` lines
190-194): `cur = out; for part in parts[:-1]: cur = cur.setdefault(part,
\x7b\x7d); cur[parts[-1]] = v`.  `none` models the exception raised when
an intermediate value is not a dict (the value returned by `setdefault`
does not support the next item access); the `[]` case is unreachable
(`split` always returns at least one segment). -/
def dotInsert : List String → String → Obj → Option Obj
  | [], _, _ => none
  | [p], v, out => some (setKey out p (Value.str v))
  | p :: q :: rest, v, out =>
    match lookup out p with
    | none => (dotInsert (q :: rest) v []).map fun inner => setKey out p (Value.obj inner)
    | some (Value.obj o) => (dotInsert (q :: rest) v o).map fun inner => setKey out p (Value.obj inner)
    | some _ => none

/-- The `for k, v in parsed.items()` loop of `_read_dotenv` (`core.py`
lines 182-196).  `none` models an exception escaping the loop body.
The `.env` file content is passed as the parsed key/value list
(`dotenv_values`); the defensive `if k is None: continue` guard and
valueless keys are not representable here (keys and values are plain
strings, which is all the claims concern). -/
def readDotenvEntries : List (String × String) → String → Obj → Option Obj
  | [], _, out => some out
  | (k, v) :: rest, pfx, out =>
    if strStartsWith k pfx then
      match _envvar_to_nested k v pfx with
      | some nested => readDotenvEntries rest pfx (deep_merge out nested)
      | none => none
    else if strContainsChar k '.' then
      match dotInsert ((strSplitOn k ".").map strToLower) v out with
      | some out' => readDotenvEntries rest pfx out'
      | none => none
    else readDotenvEntries rest pfx (setKey out (strToLower k) (Value.str v))

/-- Models `ConfigLoader._read_dotenv` (`core.py` lines 173-199): the whole
loop sits inside one `try`, whose `except Exception: return \x7b\x7d`
discards everything accumulated so far. -/
def _read_dotenv (entries : List (String × String)) (pfx : String) : Obj :=
  match readDotenvEntries entries pfx [] with
  | some out => out
  | none => []

/-! ### Claims C7 and C8 -/

theorem nestPath_eq_chainOf (segs : List String) (value : String) :
    nestPath segs value = chainOf segs value := by
  induction segs with
  | nil => rfl
  | cons p rest ih =>
    cases rest with
    | nil => rfl
    | cons q rest' =>
      show [(p, Value.obj (nestPath (q :: rest') value))] =
        [(p, Value.obj (chainOf (q :: rest') value))]
      rw [ih]

theorem pathLookup_chainOf (segs : List String) (value : String) (h : segs ≠ []) :
    pathLookup (chainOf segs value) segs = some (Value.str value) := by
  induction segs with
  | nil => exact absurd rfl h
  | cons p rest ih =>
    cases rest with
    | nil => simp [chainOf, pathLookup, lookup]
    | cons q rest' =>
      show pathLookup [(p, Value.obj (chainOf (q :: rest') value))] (p :: q :: rest') =
        some (Value.str value)
      simp only [pathLookup, lookup, if_pos rfl]
      exact ih (by simp)

/-- Claim C7 is refuted as stated: `"APP_"` starts with the prefix
`"APP_"`, yet `_envvar_to_nested("APP_", "x", "APP_")` does not return
a mapping at all — after prefix-stripping every path segment is empty,
so `key_path[-1]` raises `IndexError` (modelled by `none`). -/
theorem C7_counterexample :
    strStartsWith "APP_" "APP_" = true ∧
    _envvar_to_nested "APP_" "x" "APP_" = none := ⟨rfl, rfl⟩

/-- Claim C7, amended: for every key starting with the prefix *whose
lower-cased non-empty path segments are not all discarded*, the
translation strips the prefix, splits on double underscore, lower-cases
the segments, drops empty ones, and returns the singly-nested mapping
whose single leaf holds the value; a key with no delimiter yields a
one-level mapping. -/
theorem C7_envvar_translation (key value pfx : String)
    (hpre : strStartsWith key pfx = true)
    (hsegs : envSegments key pfx ≠ []) :
    _envvar_to_nested key value pfx = some (chainOf (envSegments key pfx) value) ∧
    pathLookup (chainOf (envSegments key pfx) value) (envSegments key pfx) =
      some (Value.str value) ∧
    (∀ p, envSegments key pfx = [p] →
      _envvar_to_nested key value pfx = some [(p, Value.str value)]) := by
  have hmain : _envvar_to_nested key value pfx =
      some (chainOf (envSegments key pfx) value) := by
    unfold _envvar_to_nested
    rw [hpre]
    simp only [if_true]
    cases hs : envSegments key pfx with
    | nil => exact absurd hs hsegs
    | cons p rest =>
      show some (nestPath (p :: rest) value) = some (chainOf (p :: rest) value)
      rw [nestPath_eq_chainOf]
  refine ⟨hmain, pathLookup_chainOf _ value hsegs, ?_⟩
  intro p hp
  rw [hmain, hp]
  rfl

/-- Witness for C7 (amended) at the spec's own example
`APP_DB__HOST=x` with prefix `APP_`. -/
theorem C7_envvar_translation_witness :
    _envvar_to_nested "APP_DB__HOST" "x" "APP_" =
      some [("db", Value.obj [("host", Value.str "x")])] := by
  have h := (C7_envvar_translation "APP_DB__HOST" "x" "APP_" rfl (by decide)).1
  exact h.trans (by rfl)

theorem read_envvars_foldl (pfx : String) (environ : List (String × String))
    (acc : Obj) :
    environ.foldl (envvarStep pfx) acc =
      (environ.filterMap
        (fun kv => if strStartsWith kv.1 pfx then _envvar_to_nested kv.1 kv.2 pfx
          else none)).foldl deep_merge acc := by
  induction environ generalizing acc with
  | nil => rfl
  | cons hd rest ih =>
    obtain ⟨k, v⟩ := hd
    by_cases hp : strStartsWith k pfx = true
    · cases ht : _envvar_to_nested k v pfx with
      | none =>
        simp only [List.foldl_cons, List.filterMap_cons, envvarStep, hp, ht, if_true]
        exact ih acc
      | some nested =>
        simp only [List.foldl_cons, List.filterMap_cons, envvarStep, hp, ht, if_true]
        exact ih (deep_merge acc nested)
    · have hp' : strStartsWith k pfx = false := by
        cases h : strStartsWith k pfx with
        | false => rfl
        | true => exact absurd h hp
      simp only [List.foldl_cons, List.filterMap_cons, envvarStep, hp',
        Bool.false_eq_true, if_false]
      exact ih acc

/-- Claim C8: during the environment-variable scan, a prefixed variable
whose translation fails is skipped without raising (removing it from
the snapshot leaves the layer unchanged), and in general the layer is
exactly the in-order `deep_merge` accumulation of the successful
translations of the prefixed variables. -/
theorem C8_envvar_skip (xs ys : List (String × String)) (pfx k v : String)
    (hpre : strStartsWith k pfx = true)
    (hfail : _envvar_to_nested k v pfx = none) :
    _read_envvars (xs ++ (k, v) :: ys) pfx = _read_envvars (xs ++ ys) pfx ∧
    (∀ environ : List (String × String),
      _read_envvars environ pfx =
        (environ.filterMap
          (fun kv => if strStartsWith kv.1 pfx then _envvar_to_nested kv.1 kv.2 pfx
            else none)).foldl deep_merge []) := by
  constructor
  · unfold _read_envvars
    rw [read_envvars_foldl, read_envvars_foldl]
    rw [List.filterMap_append, List.filterMap_append, List.filterMap_cons]
    simp [hpre, hfail]
  · intro environ
    exact read_envvars_foldl pfx environ []

/-- Witness for C8: the malformed `APP___` (empty segments) is skipped
and the well-formed `APP_OK` from the same scan still lands. -/
theorem C8_envvar_skip_witness :
    _read_envvars [("APP_OK", "1"), ("APP___", "x")] "APP_" =
      _read_envvars [("APP_OK", "1")] "APP_" :=
  (C8_envvar_skip [("APP_OK", "1")] [] "APP_" "APP___" "x" rfl rfl).1

/-! ### Claim C9 -/

/-- Claim C9: for every secrets provider outcome — an exception, a
`None`, or any non-mapping value — the secrets layer read by `load()`
is the empty mapping rather than an error (and a mapping is passed
through unchanged).  The embedded `_read_secrets` is total: no outcome
propagates an exception. -/
theorem C9_secrets_degrade :
    _read_secrets .raised = [] ∧
    _read_secrets (.ok none) = [] ∧
    (∀ v, v.isObj = false → _read_secrets (.ok (some v)) = []) ∧
    (∀ o : Obj, _read_secrets (.ok (some (Value.obj o))) = o) := by
  refine ⟨rfl, rfl, ?_, ?_⟩
  · intro v hv
    cases v with
    | null => rfl
    | bool x => cases x <;> rfl
    | int n =>
      simp only [_read_secrets, isFalsy]
      by_cases h : n = 0
      · simp [h]
      · simp [h]
    | str s =>
      simp only [_read_secrets, isFalsy]
      by_cases h : s = ""
      · simp [h]
      · simp [h]
    | list items => cases items <;> rfl
    | obj o => simp [Value.isObj] at hv
  · intro o
    cases o <;> rfl

/-- Witness for C9: a provider returning the non-mapping `"oops"`
degrades to the empty mapping. -/
theorem C9_secrets_degrade_witness :
    _read_secrets (.ok (some (Value.str "oops"))) = [] :=
  C9_secrets_degrade.2.2.1 (Value.str "oops") rfl

/-! ### Claim C3 -/

/-- Claim C3 is wrong about the code, and the code contradicts its own
docstring ("If ttl == 0, effectively no caching"): with `ttl = 0` the
freshness test `self.ttl == 0 or (now - ts) < self.ttl` is satisfied
unconditionally, so after the first fetch for an environment every
later call returns the cached entry and never invokes the wrapped
provider.  Here the first call fetches (flag `true`) and stores, and
the second call — against the claim — returns the cached value with
the provider not invoked (flag `false`) and the cache unchanged. -/
theorem C3_ttl_zero_code_behavior :
    cached_get_secrets 0 [] (.ok (some (Value.obj [("x", Value.str "dev")]))) "dev" 100 =
      ([("x", Value.str "dev")], [("dev", (100, [("x", Value.str "dev")]))], true) ∧
    cached_get_secrets 0 [("dev", (100, [("x", Value.str "dev")]))]
      (.ok (some (Value.obj [("x", Value.str "dev")]))) "dev" 200 =
      ([("x", Value.str "dev")], [("dev", (100, [("x", Value.str "dev")]))], false) :=
  ⟨rfl, rfl⟩

/-! ### Claim C4 -/

theorem read_files_foldl (cands : List (Option Obj)) (acc : Obj) :
    cands.foldl
      (fun merged c =>
        match c with
        | none => merged
        | some data => deep_merge merged data) acc =
      (cands.filterMap id).foldl deep_merge acc := by
  induction cands generalizing acc with
  | nil => rfl
  | cons hd rest ih =>
    cases hd with
    | none => simp only [List.foldl_cons, List.filterMap_cons, id]; exact ih acc
    | some data =>
      simp only [List.foldl_cons, List.filterMap_cons, id]
      exact ih (deep_merge acc data)

/-- Claim C4 is refuted as stated: with both `config.yaml = \x7b"a":
"1"\x7d` and `config.json = \x7b"a": "2"\x7d` present, the code merges
*both* base files in listed order (json after yaml, so json wins),
while the claim says only the first existing base file (yaml)
contributes. -/
theorem C4_counterexample :
    _read_files [some [("a", Value.str "1")], none, some [("a", Value.str "2")],
      none, none, none] = [("a", Value.str "2")] ∧
    read_files_claimed [some [("a", Value.str "1")], none, some [("a", Value.str "2")]]
      [none, none, none] = [("a", Value.str "1")] ∧
    [("a", Value.str "2")] ≠ [("a", Value.str "1")] := by
  refine ⟨rfl, rfl, ?_⟩
  intro h
  have h1 : ("a", Value.str "2") = ("a", Value.str "1") := List.head_eq_of_cons_eq h
  have h2 : Value.str "2" = Value.str "1" := congrArg Prod.snd h1
  have h3 : "2" = "1" := by injection h2
  exact absurd h3 (by decide)

/-- Claim C4, amended: the files layer deep-merges *every* existing
candidate file in the fixed listed order (base yaml, yml, json, then
environment-qualified yaml, yml, json) — so all existing base files
contribute, later ones winning on conflicts, and the
environment-qualified files still merge after the base files; a
nonexistent candidate is skipped without disturbing the order. -/
theorem C4_files_all_merged (cands pre post : List (Option Obj)) :
    _read_files cands = (cands.filterMap id).foldl deep_merge [] ∧
    _read_files (pre ++ none :: post) = _read_files (pre ++ post) := by
  constructor
  · exact read_files_foldl cands []
  · unfold _read_files
    rw [read_files_foldl, read_files_foldl, List.filterMap_append,
      List.filterMap_append, List.filterMap_cons]
    simp

/-! ### Claim C10 -/

theorem readDotenvEntries_fail (pfx k v : String)
    (hpre : strStartsWith k pfx = true)
    (hfail : _envvar_to_nested k v pfx = none) :
    ∀ entries : List (String × String), (k, v) ∈ entries →
      ∀ out, readDotenvEntries entries pfx out = none := by
  intro entries
  induction entries with
  | nil => intro h; exact absurd h (List.not_mem_nil _)
  | cons hd rest ih =>
    intro hmem out
    obtain ⟨k0, v0⟩ := hd
    rcases List.mem_cons.mp hmem with heq | htail
    · injection heq with hk hv
      subst hk; subst hv
      simp only [readDotenvEntries, hpre, if_true, hfail]
    · simp only [readDotenvEntries]
      by_cases hp : strStartsWith k0 pfx = true
      · rw [hp]
        simp only [if_true]
        cases _envvar_to_nested k0 v0 pfx with
        | none => rfl
        | some nested => exact ih htail _
      · simp only [Bool.not_eq_true] at hp
        rw [hp]
        simp only [Bool.false_eq_true, if_false]
        by_cases hc : strContainsChar k0 '.' = true
        · rw [hc]
          simp only [if_true]
          cases dotInsert ((strSplitOn k0 ".").map strToLower) v0 out with
          | none => rfl
          | some out' => exact ih htail _
        · simp only [Bool.not_eq_true] at hc
          rw [hc]
          simp only [Bool.false_eq_true, if_false]
          exact ih htail _

/-- Claim C10: one dotenv entry whose translation raises (here: a
prefixed key with only empty segments) makes `_read_dotenv` return the
empty mapping, discarding every other well-formed entry of the same
`.env` file — unlike `_read_envvars`, which drops only the offending
key from its scan. -/
theorem C10_dotenv_abort (entries : List (String × String)) (pfx k v : String)
    (hmem : (k, v) ∈ entries)
    (hpre : strStartsWith k pfx = true)
    (hfail : _envvar_to_nested k v pfx = none) :
    _read_dotenv entries pfx = [] ∧
    (∀ xs ys : List (String × String),
      _read_envvars (xs ++ (k, v) :: ys) pfx = _read_envvars (xs ++ ys) pfx) := by
  constructor
  · unfold _read_dotenv
    rw [readDotenvEntries_fail pfx k v hpre hfail entries hmem []]
  · intro xs ys
    unfold _read_envvars
    rw [read_envvars_foldl, read_envvars_foldl, List.filterMap_append,
      List.filterMap_append, List.filterMap_cons]
    simp [hpre, hfail]

/-- Witness for C10: the malformed `APP___=x` empties the whole dotenv
layer even though `APP_OK=1` is well-formed. -/
theorem C10_dotenv_abort_witness :
    _read_dotenv [("APP_OK", "1"), ("APP___", "x")] "APP_" = [] :=
  (C10_dotenv_abort [("APP_OK", "1"), ("APP___", "x")] "APP_" "APP___" "x"
    (by simp) rfl rfl).1

/-! ### Claim C5: the lenient YAML parse (`_parse_yaml`) -/

/-- Python `text.splitlines()` for newline-delimited text: split on
`"\n"`, dropping the final empty piece a trailing newline produces.
(`splitlines` also recognises `\r` and other exotic line boundaries;
configuration files here use `\n`.) -/
def splitLines (text : String) : List String :=
  let parts := strSplitOn text "\n"
  if parts.getLast? = some "" then parts.dropLast else parts

/-- Models `line[1:] if line.startswith(" ") else line` (`core.py` line 94):
strip one leading space from every line that begins with a space
character — one *or more*. -/
def sanitizeLine (line : String) : String :=
  if strStartsWith line " " then strDrop line 1 else line

/-- The sanitization pass of `_parse_yaml` (`core.py` lines 93-95):
`"\n".join([line[1:] if line.startswith(" ") else line for line in
text.splitlines()])`. -/
def sanitize (text : String) : String :=
  "\n".intercalate ((splitLines text).map sanitizeLine)

/-- Models `_parse_yaml(text, lenient)` (`core.py` lines 77-97).  The strict
parser `yaml.safe_load` is external; it is abstracted as `p`, whose
`Except` error is a `ScannerError` (the only exception the code
catches).  Not lenient: the failure propagates unchanged.  Lenient: one
sanitization pass, one re-parse, and whatever the re-parse produces —
including its failure — propagates with no further retries. -/
def _parse_yaml (p : String → Except String Value) (text : String)
    (lenient : Bool) : Except String Value :=
  match p text with
  | .ok v => .ok v
  | .error e => if !lenient then .error e else p (sanitize text)

/-- The sanitization pass as claim C5 words it: strip one leading space
from every line that begins with *exactly one* space. -/
def sanitizeLineClaimed (line : String) : String :=
  if strStartsWith line " " && !strStartsWith (strDrop line 1) " " then strDrop line 1
  else line

/-- Claim C5's sanitizer lifted to whole texts. -/
def sanitizeClaimed (text : String) : String :=
  "\n".intercalate ((splitLines text).map sanitizeLineClaimed)

/-- Claim C5 is refuted in its description of the sanitization pass: on
the line `"  b: 2"`, which begins with two spaces (hence not with
exactly one), the code still strips a space, while the claimed pass
leaves the line unchanged; a parser that fails on the raw text
therefore re-parses the more aggressively sanitized text. -/
theorem C5_counterexample :
    sanitize "a: 1\n  b: 2" = "a: 1\n b: 2" ∧
    sanitizeClaimed "a: 1\n  b: 2" = "a: 1\n  b: 2" ∧
    ("a: 1\n b: 2" : String) ≠ "a: 1\n  b: 2" ∧
    _parse_yaml
      (fun s => if s = "a: 1\n  b: 2" then .error "scan" else .ok (Value.str s))
      "a: 1\n  b: 2" true = .ok (Value.str "a: 1\n b: 2") :=
  ⟨rfl, rfl, by decide, rfl⟩

/-- Claim C5, amended: `parse(text, lenient)` attempts the strict parse
first; a scanner failure with `lenient = false` propagates unchanged;
with `lenient = true` exactly one sanitization pass is applied —
stripping one leading space character from every line that begins with
a space (one or more) — followed by exactly one strict re-parse whose
outcome, success or second failure, is final (no further retries). -/
theorem C5_parse_yaml (p : String → Except String Value) (text : String)
    (lenient : Bool) :
    (∀ v, p text = .ok v → _parse_yaml p text lenient = .ok v) ∧
    (∀ e, p text = .error e → _parse_yaml p text false = .error e) ∧
    (∀ e, p text = .error e → _parse_yaml p text true = p (sanitize text)) ∧
    (∀ line, strStartsWith line " " = true → sanitizeLine line = strDrop line 1) ∧
    (∀ line, strStartsWith line " " = false → sanitizeLine line = line) ∧
    sanitize text = "\n".intercalate ((splitLines text).map sanitizeLine) := by
  refine ⟨?_, ?_, ?_, ?_, ?_, rfl⟩
  · intro v h
    simp [_parse_yaml, h]
  · intro e h
    simp [_parse_yaml, h]
  · intro e h
    simp [_parse_yaml, h]
  · intro line h
    simp [sanitizeLine, h]
  · intro line h
    simp [sanitizeLine, h]

/-- Witness for C5 (amended): a parser failing on `" x"` is retried
exactly once, on the sanitized text. -/
theorem C5_parse_yaml_witness :
    _parse_yaml (fun s => if s = " x" then .error "scan" else .ok (Value.str s))
      " x" true =
      (fun s => if s = " x" then .error "scan" else .ok (Value.str s)) (sanitize " x") :=
  (C5_parse_yaml (fun s => if s = " x" then .error "scan" else .ok (Value.str s))
    " x" true).2.2.1 "scan" (by rfl)

/-! ### Claim C6: the schema-diff engine (`utils.py`) -/

mutual

/-- Structural equality of values, modelling Python `==` as used on
schema enum values (scalars in practice, where the two coincide;
Python's order-insensitive dict equality and cross-type numeric
equality are not reproduced). -/
def valueEq : Value → Value → Bool
  | .null, .null => true
  | .bool a, .bool b => a == b
  | .int a, .int b => a == b
  | .str a, .str b => a == b
  | .list a, .list b => valuesEq a b
  | .obj a, .obj b => entriesEq a b
  | _, _ => false

def valuesEq : List Value → List Value → Bool
  | [], [] => true
  | a :: as, b :: bs => valueEq a b && valuesEq as bs
  | _, _ => false

def entriesEq : List (String × Value) → List (String × Value) → Bool
  | [], [] => true
  | (ka, va) :: as, (kb, vb) :: bs => ka == kb && valueEq va vb && entriesEq as bs
  | _, _ => false

end

mutual

/-- Python `repr` of a value (for quote-free strings, the only kind the
diff engine renders), used by the f-strings in `compare_schemas`. -/
def pyReprValue : Value → String
  | .null => "None"
  | .bool true => "True"
  | .bool false => "False"
  | .int n => toString n
  | .str s => "'" ++ s ++ "'"
  | .list items => "[" ++ pyReprItems items ++ "]"
  | .obj entries => "\x7b" ++ pyReprEntries entries ++ "\x7d"

def pyReprItems : List Value → String
  | [] => ""
  | [v] => pyReprValue v
  | v :: q :: rest => pyReprValue v ++ ", " ++ pyReprItems (q :: rest)

def pyReprEntries : List (String × Value) → String
  | [] => ""
  | [(k, v)] => "'" ++ k ++ "': " ++ pyReprValue v
  | (k, v) :: q :: rest => "'" ++ k ++ "': " ++ pyReprValue v ++ ", " ++ pyReprEntries (q :: rest)

end

/-- Python `str(x)`: identity on strings, `repr` on the other schema
value kinds. -/
def pyStr : Value → String
  | .str s => s
  | v => pyReprValue v

/-- Python `repr` of a list of strings, as interpolated by the type
change messages. -/
def pyReprStrList (xs : List String) : String :=
  pyReprValue (Value.list (xs.map Value.str))

/-- Models `root.get(k)`, with `.null` for a missing key (Python `None`).
Calling `.get` on a non-dict raises in Python; the schema-diff theorem
keeps roots and property schemas dict-shaped (see `propsOk`). -/
def vGetN (v : Value) (k : String) : Value :=
  match v with
  | .obj o => (lookup o k).getD .null
  | _ => .null

/-- Models `root.get(k, d)`. -/
def vGetD (v : Value) (k : String) (d : Value) : Value :=
  match v with
  | .obj o => (lookup o k).getD d
  | _ => d

/-- Python `a or b`. -/
def pyBoolOr (a b : Value) : Value := if isFalsy a then b else a

/-- Models `"k" in v` for a dict (`False` on other values; Python's `in` on a
list or string is substring/element search, which the schema shapes in
scope never exercise). -/
def hasKeyB (v : Value) (k : String) : Bool :=
  match v with
  | .obj o => (lookup o k).isSome
  | _ => false

/-- The `node = node[p]` walk of the `$ref` resolution (`utils.py`
lines 155-162); `none` models the `KeyError`/`TypeError` caught by the
surrounding `try`, which falls back to the whole schema. -/
def walkPath : Value → List String → Option Value
  | node, [] => some node
  | node, pseg :: rest =>
    match node with
    | .obj o =>
      match lookup o pseg with
      | some nxt => walkPath nxt rest
      | none => none
    | _ => none

/-- The `$ref` resolution of `_get_props` (`utils.py` lines 151-162):
a string `$ref` of the form `#/a/b/...` is followed one level through
the same document; anything else (or a failed walk) leaves the root at
the schema itself. -/
def resolveRef (schema : Obj) : Value :=
  match lookup schema "$ref" with
  | some (.str ref) =>
    if strStartsWith ref "#/" then
      match walkPath (.obj schema) (strSplitOn (strDrop ref 2) "/") with
      | some node => node
      | none => .obj schema
    else .obj schema
  | _ => .obj schema

/-- The `definitions`/`$defs`/`components.schemas` fallback of
`_get_props` (`utils.py` lines 163-172): when the resolved root has no
`properties`, take the first value of the first non-empty defs mapping,
if it is a dict with `properties`. -/
def pickRoot (schema : Obj) : Value :=
  let root := resolveRef schema
  if hasKeyB root "properties" then root
  else
    match pyBoolOr (vGetN root "definitions")
      (pyBoolOr (vGetN root "$defs")
        (vGetD (vGetD root "components" (.obj [])) "schemas" (.obj []))) with
    | .obj ((_, first) :: _) => if hasKeyB first "properties" then first else root
    | _ => root

/-- Coerce the `properties` value to a dict (`.keys()` on a truthy
non-dict would raise in Python; outside the claims in scope). -/
def toObj : Value → Obj
  | .obj o => o
  | _ => []

/-- The names in the `required` list (`set(...)` membership of a
property name only ever sees the string elements). -/
def reqNames : Value → List String
  | .list items =>
    items.filterMap fun x =>
      match x with
      | .str s => some s
      | _ => none
  | _ => []

/-- Models `_get_props(schema)` (`utils.py` lines 150-175): the normalized
`(properties, required)` view, after one `$ref`/defs indirection, with
`props or \x7b\x7d` and `required or []` coercions. -/
def _get_props (schema : Obj) : Obj × List String :=
  let root := pickRoot schema
  (toObj (pyBoolOr (vGetN root "properties") (.obj [])),
   reqNames (pyBoolOr (vGetN root "required") (.list [])))

/-- Python string `<` (lexicographic by code point). -/
def charsLe : List Char → List Char → Bool
  | [], _ => true
  | _ :: _, [] => false
  | a :: as, b :: bs => if a < b then true else if b < a then false else charsLe as bs

def strLeB (a b : String) : Bool := charsLe a.data b.data

def insertSorted (x : String) : List String → List String
  | [] => [x]
  | y :: ys => if strLeB x y then x :: y :: ys else y :: insertSorted x ys

/-- Python `sorted` on a list of strings (insertion sort — the order is
what matters, not the algorithm). -/
def sortStrs : List String → List String
  | [] => []
  | x :: xs => insertSorted x (sortStrs xs)

/-- Models `_normalize_type(t)` (`utils.py` lines 142-147), where `t` is the
value of `.get("type")` (`.null` when absent, matching Python `None`). -/
def _normalize_type (t : Value) : List String :=
  match t with
  | .null => []
  | .list xs => xs.map pyStr
  | v => [pyStr v]

/-- The effective declared type set of a property schema: its
normalized `type`, or the synthetic `["mixed"]` when `type` is missing
but `anyOf`/`oneOf` is present (`utils.py` lines 208-215). -/
def effTypes (p : Value) : List String :=
  let ts := _normalize_type (vGetN p "type")
  if ts.isEmpty then
    if hasKeyB p "anyOf" || hasKeyB p "oneOf" then ["mixed"] else []
  else ts

/-- Models `set(a).issubset(set(b))` on string lists. -/
def subsetB (a b : List String) : Bool := a.all fun x => b.contains x

/-- Models `set(a) == set(b)` on string lists. -/
def setEqB (a b : List String) : Bool := subsetB a b && subsetB b a

/-- Models `v in l` under Python `==` on schema values. -/
def containsV (l : List Value) (v : Value) : Bool := l.any fun w => valueEq v w

/-- Models `old_props[k] or \x7b\x7d` for a key of the properties dict
(`utils.py` lines 198-199). -/
def propAt (props : Obj) (k : String) : Value :=
  pyBoolOr ((lookup props k).getD .null) (.obj [])

/-- The first loop of `compare_schemas` (`utils.py` lines 189-191):
`for k in sorted(old_props.keys()): if k not in new_props:
out["breaking"].append(f"removed property: \x7bk\x7d")`. -/
def removedEntries (op np : Obj) : List String :=
  (sortStrs (keys op)).filterMap fun k =>
    if (lookup np k).isSome then none else some ("removed property: " ++ k)

/-- The second loop (`utils.py` lines 193-195). -/
def addedEntries (op np : Obj) : List String :=
  (sortStrs (keys np)).filterMap fun k =>
    if (lookup op k).isSome then none else some ("added property: " ++ k)

/-- Models `sorted(set(old_props.keys()).intersection(new_props.keys()))`
(`utils.py` line 197), for key lists without duplicates. -/
def commonKeys (op np : Obj) : List String :=
  sortStrs ((keys op).filter fun k => (lookup np k).isSome)

/-- The `breaking` entry of the enum rule for one common property
(`utils.py` lines 227-232): both sides carry enum lists and values were
removed. -/
def enumRemovedEntry (op np : Obj) (k : String) : List String :=
  match vGetN (propAt op k) "enum", vGetN (propAt np k) "enum" with
  | .list oe, .list ne =>
    let removed := oe.filter fun v => !containsV ne v
    if removed.isEmpty then []
    else ["enum values removed for " ++ k ++ ": " ++ pyReprValue (Value.list removed)]
  | _, _ => []

/-- The `non_breaking` entry of the enum rule for one common property
(`utils.py` lines 233-235). -/
def enumAddedEntry (op np : Obj) (k : String) : List String :=
  match vGetN (propAt op k) "enum", vGetN (propAt np k) "enum" with
  | .list oe, .list ne =>
    let added := ne.filter fun v => !containsV oe v
    if added.isEmpty then []
    else ["enum values added for " ++ k ++ ": " ++ pyReprValue (Value.list added)]
  | _, _ => []

/-- The `breaking` entries the third loop appends for one common
property `k` (`utils.py` lines 201-232), in appended order: became
required, then type narrowed, then enum values removed. -/
def keyBreaking (op np : Obj) (oreq nreq : List String) (k : String) : List String :=
  let ot := effTypes (propAt op k)
  let nt := effTypes (propAt np k)
  (if !(oreq.contains k) && nreq.contains k then ["property became required: " ++ k]
   else []) ++
  (if !ot.isEmpty && !nt.isEmpty && !setEqB ot nt && !subsetB ot nt then
     ["type changed for property " ++ k ++ ": " ++ pyReprStrList ot ++ " -> " ++
       pyReprStrList nt]
   else []) ++
  enumRemovedEntry op np k

/-- The `non_breaking` entries the third loop appends for one common
property `k`, in appended order: became optional, then type widened,
then enum values added. -/
def keyNonBreaking (op np : Obj) (oreq nreq : List String) (k : String) : List String :=
  let ot := effTypes (propAt op k)
  let nt := effTypes (propAt np k)
  (if oreq.contains k && !(nreq.contains k) then ["property became optional: " ++ k]
   else []) ++
  (if !ot.isEmpty && !nt.isEmpty && !setEqB ot nt && subsetB ot nt then
     ["property type widened: " ++ k ++ " (" ++ pyReprStrList ot ++ " -> " ++
       pyReprStrList nt ++ ")"]
   else []) ++
  enumAddedEntry op np k

/-- The classification over the two normalized views: the `breaking`
and `non_breaking` lists of `compare_schemas`, which appends removed
entries, then per-common-key breaking entries (resp. added entries,
then per-common-key non-breaking entries) in sorted key order. -/
def compare_views (op np : Obj) (oreq nreq : List String) :
    List String × List String :=
  (removedEntries op np ++ (commonKeys op np).flatMap (keyBreaking op np oreq nreq),
   addedEntries op np ++ (commonKeys op np).flatMap (keyNonBreaking op np oreq nreq))

/-- Models `compare_schemas(old_schema, new_schema)` (`utils.py` lines
178-237): normalize both sides with `_get_props`, then classify; the
pair is the `(breaking, non_breaking)` lists of the returned dict. -/
def compare_schemas (old_schema new_schema : Obj) : List String × List String :=
  compare_views (_get_props old_schema).1 (_get_props new_schema).1
    (_get_props old_schema).2 (_get_props new_schema).2

/-- Every property schema in a view is a dict or falsy — the shapes on
which the embedded comparison agrees with Python (a truthy non-dict
property schema would make Python raise at `old_p.get`). -/
def propsOk (props : Obj) : Bool :=
  props.all fun kv => kv.2.isObj || isFalsy kv.2

theorem insertSorted_perm (x : String) (l : List String) :
    (insertSorted x l).Perm (x :: l) := by
  induction l with
  | nil => exact List.Perm.refl _
  | cons y ys ih =>
    unfold insertSorted
    by_cases h : strLeB x y = true
    · rw [if_pos h]
    · rw [if_neg h]
      exact (ih.cons y).trans (List.Perm.swap x y ys)

theorem sortStrs_perm (l : List String) : (sortStrs l).Perm l := by
  induction l with
  | nil => exact List.Perm.refl _
  | cons x xs ih => exact (insertSorted_perm x (sortStrs xs)).trans (ih.cons x)

theorem mem_sortStrs (l : List String) (a : String) : a ∈ sortStrs l ↔ a ∈ l :=
  (sortStrs_perm l).mem_iff

theorem containsStr_iff (l : List String) (a : String) :
    l.contains a = true ↔ a ∈ l := by
  induction l with
  | nil => simp
  | cons y ys ih =>
    rw [List.contains_cons, Bool.or_eq_true, beq_iff_eq, ih, List.mem_cons]

theorem length_flatMap_sum (l : List String) (f : String → List String) :
    (l.flatMap f).length = (l.map fun a => (f a).length).sum := by
  induction l with
  | nil => rfl
  | cons x xs ih => simp [List.flatMap_cons, ih]

theorem length_if_singleton (c : Bool) (x : String) :
    (if c then [x] else []).length = if c then 1 else 0 := by
  cases c <;> rfl

/-- Models `k` is required in the new view but was not in the old one. -/
def becameRequiredB (oreq nreq : List String) (k : String) : Bool :=
  !(oreq.contains k) && nreq.contains k

/-- Models `k` was required in the old view but is not in the new one. -/
def becameOptionalB (oreq nreq : List String) (k : String) : Bool :=
  oreq.contains k && !(nreq.contains k)

/-- Both sides declare a type set, the sets differ, and old's is not a
subset of new's. -/
def typeNarrowedB (op np : Obj) (k : String) : Bool :=
  !(effTypes (propAt op k)).isEmpty && !(effTypes (propAt np k)).isEmpty &&
    !setEqB (effTypes (propAt op k)) (effTypes (propAt np k)) &&
    !subsetB (effTypes (propAt op k)) (effTypes (propAt np k))

/-- Both sides declare a type set, the sets differ, and old's is a
subset of new's (pure widening). -/
def typeWidenedB (op np : Obj) (k : String) : Bool :=
  !(effTypes (propAt op k)).isEmpty && !(effTypes (propAt np k)).isEmpty &&
    !setEqB (effTypes (propAt op k)) (effTypes (propAt np k)) &&
    subsetB (effTypes (propAt op k)) (effTypes (propAt np k))

/-- The enum rule detected removed values: its entry is present. -/
def enumRemovedB (op np : Obj) (k : String) : Bool :=
  !(enumRemovedEntry op np k).isEmpty

/-- The enum rule detected added values: its entry is present. -/
def enumAddedB (op np : Obj) (k : String) : Bool :=
  !(enumAddedEntry op np k).isEmpty

theorem mem_removedEntries (op np : Obj) (k : String) (h1 : k ∈ keys op)
    (h2 : k ∉ keys np) :
    ("removed property: " ++ k) ∈ removedEntries op np := by
  unfold removedEntries
  apply List.mem_filterMap.mpr
  refine ⟨k, (mem_sortStrs (keys op) k).mpr h1, ?_⟩
  have h : lookup np k = none := (lookup_eq_none_iff np k).mpr h2
  simp [h]

theorem mem_addedEntries (op np : Obj) (k : String) (h1 : k ∈ keys np)
    (h2 : k ∉ keys op) :
    ("added property: " ++ k) ∈ addedEntries op np := by
  unfold addedEntries
  apply List.mem_filterMap.mpr
  refine ⟨k, (mem_sortStrs (keys np) k).mpr h1, ?_⟩
  have h : lookup op k = none := (lookup_eq_none_iff op k).mpr h2
  simp [h]

theorem mem_commonKeys (op np : Obj) (k : String) :
    k ∈ commonKeys op np ↔ k ∈ keys op ∧ k ∈ keys np := by
  unfold commonKeys
  rw [mem_sortStrs, List.mem_filter, lookup_isSome_iff]

theorem isEmpty_false_of_ne_nil {α : Type} {l : List α} (h : l ≠ []) :
    l.isEmpty = false := by
  cases l with
  | nil => exact absurd rfl h
  | cons x xs => rfl

theorem keyBreaking_mem_req (op np : Obj) (oreq nreq : List String) (k : String)
    (h1 : oreq.contains k = false) (h2 : nreq.contains k = true) :
    ("property became required: " ++ k) ∈ keyBreaking op np oreq nreq k := by
  simp only [keyBreaking, h1, h2, Bool.not_false, Bool.true_and, if_true]
  exact List.mem_append_left _ (List.mem_append_left _ (List.mem_singleton_self _))

theorem keyNonBreaking_mem_req (op np : Obj) (oreq nreq : List String) (k : String)
    (h1 : oreq.contains k = true) (h2 : nreq.contains k = false) :
    ("property became optional: " ++ k) ∈ keyNonBreaking op np oreq nreq k := by
  simp only [keyNonBreaking, h1, h2, Bool.not_false, Bool.true_and, if_true]
  exact List.mem_append_left _ (List.mem_append_left _ (List.mem_singleton_self _))

theorem keyBreaking_mem_type (op np : Obj) (oreq nreq : List String) (k : String)
    (h1 : effTypes (propAt op k) ≠ []) (h2 : effTypes (propAt np k) ≠ [])
    (h3 : setEqB (effTypes (propAt op k)) (effTypes (propAt np k)) = false)
    (h4 : subsetB (effTypes (propAt op k)) (effTypes (propAt np k)) = false) :
    ("type changed for property " ++ k ++ ": " ++ pyReprStrList (effTypes (propAt op k)) ++
      " -> " ++ pyReprStrList (effTypes (propAt np k))) ∈ keyBreaking op np oreq nreq k := by
  simp only [keyBreaking, isEmpty_false_of_ne_nil h1, isEmpty_false_of_ne_nil h2, h3, h4,
    Bool.not_false, Bool.true_and, Bool.and_self, if_true]
  exact List.mem_append_left _ (List.mem_append_right _ (List.mem_singleton_self _))

theorem keyNonBreaking_mem_type (op np : Obj) (oreq nreq : List String) (k : String)
    (h1 : effTypes (propAt op k) ≠ []) (h2 : effTypes (propAt np k) ≠ [])
    (h3 : setEqB (effTypes (propAt op k)) (effTypes (propAt np k)) = false)
    (h4 : subsetB (effTypes (propAt op k)) (effTypes (propAt np k)) = true) :
    ("property type widened: " ++ k ++ " (" ++ pyReprStrList (effTypes (propAt op k)) ++
      " -> " ++ pyReprStrList (effTypes (propAt np k)) ++ ")") ∈
      keyNonBreaking op np oreq nreq k := by
  simp only [keyNonBreaking, isEmpty_false_of_ne_nil h1, isEmpty_false_of_ne_nil h2, h3, h4,
    Bool.not_false, Bool.true_and, Bool.and_self, if_true]
  exact List.mem_append_left _ (List.mem_append_right _ (List.mem_singleton_self _))

theorem enumRemovedEntry_eq (op np : Obj) (k : String) (oe ne : List Value)
    (h1 : vGetN (propAt op k) "enum" = .list oe)
    (h2 : vGetN (propAt np k) "enum" = .list ne)
    (h3 : (oe.filter fun v => !containsV ne v) ≠ []) :
    enumRemovedEntry op np k =
      ["enum values removed for " ++ k ++ ": " ++
        pyReprValue (Value.list (oe.filter fun v => !containsV ne v))] := by
  unfold enumRemovedEntry
  rw [h1, h2]
  simp [isEmpty_false_of_ne_nil h3]

theorem enumAddedEntry_eq (op np : Obj) (k : String) (oe ne : List Value)
    (h1 : vGetN (propAt op k) "enum" = .list oe)
    (h2 : vGetN (propAt np k) "enum" = .list ne)
    (h3 : (ne.filter fun v => !containsV oe v) ≠ []) :
    enumAddedEntry op np k =
      ["enum values added for " ++ k ++ ": " ++
        pyReprValue (Value.list (ne.filter fun v => !containsV oe v))] := by
  unfold enumAddedEntry
  rw [h1, h2]
  simp [isEmpty_false_of_ne_nil h3]

theorem keyBreaking_mem_enum (op np : Obj) (oreq nreq : List String) (k : String)
    (oe ne : List Value)
    (h1 : vGetN (propAt op k) "enum" = .list oe)
    (h2 : vGetN (propAt np k) "enum" = .list ne)
    (h3 : (oe.filter fun v => !containsV ne v) ≠ []) :
    ("enum values removed for " ++ k ++ ": " ++
      pyReprValue (Value.list (oe.filter fun v => !containsV ne v))) ∈
      keyBreaking op np oreq nreq k := by
  simp only [keyBreaking, enumRemovedEntry_eq op np k oe ne h1 h2 h3]
  exact List.mem_append_right _ (List.mem_singleton_self _)

theorem keyNonBreaking_mem_enum (op np : Obj) (oreq nreq : List String) (k : String)
    (oe ne : List Value)
    (h1 : vGetN (propAt op k) "enum" = .list oe)
    (h2 : vGetN (propAt np k) "enum" = .list ne)
    (h3 : (ne.filter fun v => !containsV oe v) ≠ []) :
    ("enum values added for " ++ k ++ ": " ++
      pyReprValue (Value.list (ne.filter fun v => !containsV oe v))) ∈
      keyNonBreaking op np oreq nreq k := by
  simp only [keyNonBreaking, enumAddedEntry_eq op np k oe ne h1 h2 h3]
  exact List.mem_append_right _ (List.mem_singleton_self _)

theorem enumRemovedEntry_shape (op np : Obj) (k : String) :
    enumRemovedEntry op np k = [] ∨ ∃ m, enumRemovedEntry op np k = [m] := by
  unfold enumRemovedEntry
  split
  · dsimp only
    split
    · exact Or.inl rfl
    · exact Or.inr ⟨_, rfl⟩
  · exact Or.inl rfl

theorem enumAddedEntry_shape (op np : Obj) (k : String) :
    enumAddedEntry op np k = [] ∨ ∃ m, enumAddedEntry op np k = [m] := by
  unfold enumAddedEntry
  split
  · dsimp only
    split
    · exact Or.inl rfl
    · exact Or.inr ⟨_, rfl⟩
  · exact Or.inl rfl

theorem enumRemovedEntry_length (op np : Obj) (k : String) :
    (enumRemovedEntry op np k).length = if enumRemovedB op np k then 1 else 0 := by
  rcases enumRemovedEntry_shape op np k with h | ⟨m, h⟩ <;> simp [enumRemovedB, h]

theorem enumAddedEntry_length (op np : Obj) (k : String) :
    (enumAddedEntry op np k).length = if enumAddedB op np k then 1 else 0 := by
  rcases enumAddedEntry_shape op np k with h | ⟨m, h⟩ <;> simp [enumAddedB, h]

theorem keyBreaking_length (op np : Obj) (oreq nreq : List String) (k : String) :
    (keyBreaking op np oreq nreq k).length =
      (if becameRequiredB oreq nreq k then 1 else 0) +
      (if typeNarrowedB op np k then 1 else 0) +
      (if enumRemovedB op np k then 1 else 0) := by
  simp only [keyBreaking, List.length_append, length_if_singleton,
    enumRemovedEntry_length]
  rfl

theorem keyNonBreaking_length (op np : Obj) (oreq nreq : List String) (k : String) :
    (keyNonBreaking op np oreq nreq k).length =
      (if becameOptionalB oreq nreq k then 1 else 0) +
      (if typeWidenedB op np k then 1 else 0) +
      (if enumAddedB op np k then 1 else 0) := by
  simp only [keyNonBreaking, List.length_append, length_if_singleton,
    enumAddedEntry_length]
  rfl

/-- Claim C6: `compare_schemas` classifies each delta between the two
normalized `(properties, required)` views, iterating property names in
sorted order: a property only in old is a breaking "removed property";
only in new, a non-breaking "added property"; for common properties,
newly required is breaking and newly optional non-breaking; when both
sides declare (possibly synthetic `mixed`) type sets that differ, a
subset relation old ⊆ new is a non-breaking widening and anything else
a breaking type change; when both sides carry enum lists, removed
values are breaking and added values non-breaking; and each detected
change contributes exactly one entry (the per-key breaking and
non-breaking lengths are the sums of indicator counts of the detected
changes).  The final conjunct ties `compare_schemas` to the view-level
classification after `_get_props` normalization. -/
theorem C6_schema_diff (op np : Obj) (oreq nreq : List String)
    (hop : NodupKeys op) (hnp : NodupKeys np)
    (hok : propsOk op = true ∧ propsOk np = true) :
    (∀ k, k ∈ keys op → k ∉ keys np →
      ("removed property: " ++ k) ∈ (compare_views op np oreq nreq).1) ∧
    (∀ k, k ∈ keys np → k ∉ keys op →
      ("added property: " ++ k) ∈ (compare_views op np oreq nreq).2) ∧
    (∀ k, k ∈ keys op → k ∈ keys np → k ∉ oreq → k ∈ nreq →
      ("property became required: " ++ k) ∈ (compare_views op np oreq nreq).1) ∧
    (∀ k, k ∈ keys op → k ∈ keys np → k ∈ oreq → k ∉ nreq →
      ("property became optional: " ++ k) ∈ (compare_views op np oreq nreq).2) ∧
    (∀ k, k ∈ keys op → k ∈ keys np →
      effTypes (propAt op k) ≠ [] → effTypes (propAt np k) ≠ [] →
      setEqB (effTypes (propAt op k)) (effTypes (propAt np k)) = false →
      ((subsetB (effTypes (propAt op k)) (effTypes (propAt np k)) = true →
        ("property type widened: " ++ k ++ " (" ++ pyReprStrList (effTypes (propAt op k)) ++
          " -> " ++ pyReprStrList (effTypes (propAt np k)) ++ ")") ∈
          (compare_views op np oreq nreq).2) ∧
       (subsetB (effTypes (propAt op k)) (effTypes (propAt np k)) = false →
        ("type changed for property " ++ k ++ ": " ++
          pyReprStrList (effTypes (propAt op k)) ++ " -> " ++
          pyReprStrList (effTypes (propAt np k))) ∈ (compare_views op np oreq nreq).1))) ∧
    (∀ k oe ne, k ∈ keys op → k ∈ keys np →
      vGetN (propAt op k) "enum" = .list oe → vGetN (propAt np k) "enum" = .list ne →
      (((oe.filter fun v => !containsV ne v) ≠ [] →
        ("enum values removed for " ++ k ++ ": " ++
          pyReprValue (Value.list (oe.filter fun v => !containsV ne v))) ∈
          (compare_views op np oreq nreq).1) ∧
       ((ne.filter fun v => !containsV oe v) ≠ [] →
        ("enum values added for " ++ k ++ ": " ++
          pyReprValue (Value.list (ne.filter fun v => !containsV oe v))) ∈
          (compare_views op np oreq nreq).2))) ∧
    ((compare_views op np oreq nreq).1.length =
      (removedEntries op np).length +
        ((commonKeys op np).map fun k =>
          (if becameRequiredB oreq nreq k then 1 else 0) +
          (if typeNarrowedB op np k then 1 else 0) +
          (if enumRemovedB op np k then 1 else 0)).sum ∧
     (compare_views op np oreq nreq).2.length =
      (addedEntries op np).length +
        ((commonKeys op np).map fun k =>
          (if becameOptionalB oreq nreq k then 1 else 0) +
          (if typeWidenedB op np k then 1 else 0) +
          (if enumAddedB op np k then 1 else 0)).sum) ∧
    (∀ os ns : Obj, compare_schemas os ns =
      compare_views (_get_props os).1 (_get_props ns).1
        (_get_props os).2 (_get_props ns).2) := by
  refine ⟨?_, ?_, ?_, ?_, ?_, ?_, ⟨?_, ?_⟩, fun os ns => rfl⟩
  · intro k h1 h2
    exact List.mem_append_left _ (mem_removedEntries op np k h1 h2)
  · intro k h1 h2
    exact List.mem_append_left _ (mem_addedEntries op np k h1 h2)
  · intro k h1 h2 h3 h4
    apply List.mem_append_right
    apply List.mem_flatMap.mpr
    refine ⟨k, (mem_commonKeys op np k).mpr ⟨h1, h2⟩, ?_⟩
    apply keyBreaking_mem_req
    · cases h : oreq.contains k with
      | false => rfl
      | true => exact absurd ((containsStr_iff oreq k).mp h) h3
    · exact (containsStr_iff nreq k).mpr h4
  · intro k h1 h2 h3 h4
    apply List.mem_append_right
    apply List.mem_flatMap.mpr
    refine ⟨k, (mem_commonKeys op np k).mpr ⟨h1, h2⟩, ?_⟩
    apply keyNonBreaking_mem_req
    · exact (containsStr_iff oreq k).mpr h3
    · cases h : nreq.contains k with
      | false => rfl
      | true => exact absurd ((containsStr_iff nreq k).mp h) h4
  · intro k h1 h2 ht1 ht2 hne
    constructor
    · intro hsub
      apply List.mem_append_right
      apply List.mem_flatMap.mpr
      exact ⟨k, (mem_commonKeys op np k).mpr ⟨h1, h2⟩,
        keyNonBreaking_mem_type op np oreq nreq k ht1 ht2 hne hsub⟩
    · intro hsub
      apply List.mem_append_right
      apply List.mem_flatMap.mpr
      exact ⟨k, (mem_commonKeys op np k).mpr ⟨h1, h2⟩,
        keyBreaking_mem_type op np oreq nreq k ht1 ht2 hne hsub⟩
  · intro k oe ne h1 h2 he1 he2
    constructor
    · intro hrm
      apply List.mem_append_right
      apply List.mem_flatMap.mpr
      exact ⟨k, (mem_commonKeys op np k).mpr ⟨h1, h2⟩,
        keyBreaking_mem_enum op np oreq nreq k oe ne he1 he2 hrm⟩
    · intro hadd
      apply List.mem_append_right
      apply List.mem_flatMap.mpr
      exact ⟨k, (mem_commonKeys op np k).mpr ⟨h1, h2⟩,
        keyNonBreaking_mem_enum op np oreq nreq k oe ne he1 he2 hadd⟩
  · show (removedEntries op np ++
      (commonKeys op np).flatMap (keyBreaking op np oreq nreq)).length = _
    rw [List.length_append, length_flatMap_sum]
    simp only [keyBreaking_length]
  · show (addedEntries op np ++
      (commonKeys op np).flatMap (keyNonBreaking op np oreq nreq)).length = _
    rw [List.length_append, length_flatMap_sum]
    simp only [keyNonBreaking_length]

/-- Witness for C6 at the spec's worked example:
`compare(\x7bproperties: \x7ba: \x7btype: "string"\x7d\x7d\x7d,
\x7bproperties: \x7ba: ..., b: \x7btype: "integer"\x7d\x7d\x7d)` reports
non-breaking "added property: b". -/
theorem C6_schema_diff_witness :
    ("added property: b") ∈
      (compare_views [("a", Value.obj [("type", Value.str "string")])]
        [("a", Value.obj [("type", Value.str "string")]),
         ("b", Value.obj [("type", Value.str "integer")])] [] []).2 :=
  (C6_schema_diff [("a", Value.obj [("type", Value.str "string")])]
      [("a", Value.obj [("type", Value.str "string")]),
       ("b", Value.obj [("type", Value.str "integer")])] [] []
      (by decide) (by decide) ⟨by decide, by decide⟩).2.1 "b"
    (by decide) (by decide)
